import Mathlib

/-!
Verification of the Paint-Spraying-Simulation core.

Shallow embedding of the Python sources `spray_parameters.py` and
`spray_simulator.py`.  Floating-point values are modelled as real numbers;
NumPy / Warp arrays are modelled as total functions from indices; the Warp
per-thread random stream `wp.rand_init(seed + tid, tid)` / `wp.randf` is
modelled by an abstract stream `u : ℤ → ℤ → ℕ → ℝ` giving the k-th uniform
draw of the thread whose state was initialised from the pair of integers.
Python constructors (which may in general raise) are embedded as
`Except`-valued functions; a constructor with no `raise` statement is the
constant `Except.ok`.
-/

noncomputable section

namespace SpraySim

/-- Three-component vector, the model of `wp.vec3` / NumPy length-3 arrays. -/
structure Vec3 where
  x : ℝ
  y : ℝ
  z : ℝ

/-- Componentwise addition of vectors. -/
def vadd (a b : Vec3) : Vec3 := ⟨a.x + b.x, a.y + b.y, a.z + b.z⟩

/-- Scalar multiplication of a vector. -/
def vsmul (c : ℝ) (a : Vec3) : Vec3 := ⟨c * a.x, c * a.y, c * a.z⟩

/-- Euclidean length, the model of `wp.length`. -/
def vlen (a : Vec3) : ℝ := Real.sqrt (a.x * a.x + a.y * a.y + a.z * a.z)

/-- Model of `wp.normalize`: the vector divided by its length
(the zero vector maps to the zero vector, via division by zero). -/
def vnormalize (a : Vec3) : Vec3 := vsmul (1 / vlen a) a

/-- Model of `SprayParameters` from `spray_parameters.py`: plain record of the
configuration fields set by `SprayParameters.__init__`. -/
structure SprayParameters where
  spray_width : ℝ
  spray_range : ℝ
  spray_density : ℕ
  paint_intensity : ℝ
  nozzle_distance : ℝ
  fan_angle : ℝ

/-- The constructor `SprayParameters.__init__` takes no arguments and only assigns the
fixed default field values; it contains no validation and no `raise`. -/
def sprayParametersInit : SprayParameters :=
  { spray_width := 0.5
    spray_range := 2.0
    spray_density := 500
    paint_intensity := 0.15
    nozzle_distance := 0.8
    fan_angle := 25.0 }

/-- Model of the Python exceptions relevant to construction: the
specification's `ConfigurationError` (which no code in the source ever
raises) and NumPy's `ValueError` (which `np.zeros((r, r))` raises for
negative dimensions). -/
inductive PyError where
  | configurationError : PyError
  | valueError : PyError

/-- Embedding of `SprayParameters.__init__` as a fallible constructor:
the Python body only assigns constants and can raise nothing, so it
always returns `ok`. -/
def sprayParametersInitE : Except PyError SprayParameters :=
  Except.ok sprayParametersInit

/-- Model of `WallMesh` from `spray_parameters.py`: wall dimensions, grid
resolution, the paint-coverage grid (a total function standing for the
`resolution × resolution` NumPy array, indexed `paint_coverage y x`),
and the mesh vertices/faces built by `_create_mesh`. -/
@[ext]
structure WallMesh where
  width : ℝ
  height : ℝ
  resolution : ℤ
  paint_coverage : ℤ → ℤ → ℝ
  vertices : List Vec3
  faces : List (ℕ × ℕ × ℕ)

/-- Model of `WallMesh._create_mesh`: the wall quad's four vertices. -/
def createMeshVertices (width height : ℝ) : List Vec3 :=
  [⟨-(width / 2), -(height / 2), 0⟩, ⟨width / 2, -(height / 2), 0⟩,
   ⟨width / 2, height / 2, 0⟩, ⟨-(width / 2), height / 2, 0⟩]

/-- Model of `WallMesh.__init__`: stores the parameters, creates the all-zero
coverage grid (`np.zeros`) and the quad mesh.  It performs no validation. -/
def wallMeshInit (width height : ℝ) (resolution : ℤ) : WallMesh :=
  { width := width
    height := height
    resolution := resolution
    paint_coverage := fun _ _ => 0
    vertices := createMeshVertices width height
    faces := [(0, 1, 2), (0, 2, 3)] }

/-- Embedding of `WallMesh.__init__` as a fallible constructor.  The
body contains no validation and no `raise` of its own; its only
failure is `np.zeros((resolution, resolution))`, which raises
`ValueError` when `resolution` is negative (`np.zeros((0, 0))` and any
non-negative size succeed).  Width and height are never checked. -/
def wallMeshInitE (width height : ℝ) (resolution : ℤ) :
    Except PyError WallMesh :=
  if resolution < 0 then Except.error PyError.valueError
  else Except.ok (wallMeshInit width height resolution)

/-- Python `int()` applied to a real: truncation toward zero. -/
def truncInt (r : ℝ) : ℤ := if 0 ≤ r then ⌊r⌋ else ⌈r⌉

/-- Model of `WallMesh.world_to_texture`: normalize the world position to `[0,1]`,
scale by the resolution, truncate to an integer and clamp to
`[0, resolution - 1]`.  Returns `(x, y)`. -/
def worldToTexture (m : WallMesh) (p : Vec3) : ℤ × ℤ :=
  let u := (p.x + m.width / 2) / m.width
  let v := (p.y + m.height / 2) / m.height
  let x := truncInt (u * (m.resolution : ℝ))
  let y := truncInt (v * (m.resolution : ℝ))
  (max 0 (min x (m.resolution - 1)), max 0 (min y (m.resolution - 1)))

/-- Write value `v` into cell `(row y, column x)` of a grid. -/
def updateCell (g : ℤ → ℤ → ℝ) (y x : ℤ) (v : ℝ) : ℤ → ℤ → ℝ :=
  fun j i => if j = y ∧ i = x then v else g j i

/-- The fixed attenuation constant `0.3` of the spread deposit in
`WallMesh.add_paint`. -/
def falloff_factor : ℝ := 0.3

/-- The `spread_intensity` of `WallMesh.add_paint` for the neighbour at
offset `d = (dx, dy)`:
`intensity * 0.3 * max(0, 1 - distance / spread_radius)` with
`distance = sqrt(dx*dx + dy*dy)` and `spread_radius = 2`. -/
def spreadWeight (intensity : ℝ) (d : ℤ × ℤ) : ℝ :=
  intensity * falloff_factor *
    max 0 (1 - Real.sqrt ((d.1 : ℝ) * (d.1 : ℝ) + (d.2 : ℝ) * (d.2 : ℝ)) / 2)

/-- The iteration domain of the nested spread loops of
`WallMesh.add_paint`: `dx` (outer) and `dy` (inner) both ranging over
`range(-spread_radius, spread_radius + 1)` with `spread_radius = 2`. -/
def spreadOffsets : List (ℤ × ℤ) :=
  ([-2, -1, 0, 1, 2] : List ℤ).flatMap fun dx =>
    ([-2, -1, 0, 1, 2] : List ℤ).map fun dy => (dx, dy)

/-- One iteration of the spread loop body of `WallMesh.add_paint`:
skip the centre offset; otherwise, if the neighbour `(x+dx, y+dy)` is in
bounds, clamp-add the spread intensity into it. -/
def neighborStep (res x y : ℤ) (intensity : ℝ) (g : ℤ → ℤ → ℝ)
    (d : ℤ × ℤ) : ℤ → ℤ → ℝ :=
  if d.1 = 0 ∧ d.2 = 0 then g
  else
    let nx := x + d.1
    let ny := y + d.2
    if 0 ≤ nx ∧ nx < res ∧ 0 ≤ ny ∧ ny < res then
      updateCell g ny nx (min 1 (g ny nx + spreadWeight intensity d))
    else g

/-- The per-position body of `WallMesh.add_paint`: if the position lies
within the tolerance band `|z| < 0.2` of the wall plane, deposit
`min(1, old + intensity)` at the primary cell and then run the spread
loop; otherwise the grid is unchanged. -/
def depositPos (m : WallMesh) (intensity : ℝ) (p : Vec3) : WallMesh :=
  if |p.z| < 0.2 then
    let xy := worldToTexture m p
    let g1 := updateCell m.paint_coverage xy.2 xy.1
      (min 1 (m.paint_coverage xy.2 xy.1 + intensity))
    { m with paint_coverage :=
        spreadOffsets.foldl (neighborStep m.resolution xy.1 xy.2 intensity) g1 }
  else m

/-- Model of `WallMesh.add_paint`: fold the deposit body over the list of hit
positions (the early return on an empty list is the empty fold). -/
def addPaint (m : WallMesh) (positions : List Vec3) (intensity : ℝ) :
    WallMesh :=
  positions.foldl (fun mm p => depositPos mm intensity p) m

/-- The spread-loop iteration for offset `d` writes cell `(j, i)`:
`d` is not the skipped centre, the neighbour `(x + dx, y + dy)` is in
bounds, and that neighbour is `(i, j)`. -/
def touchCond (res x y : ℤ) (d : ℤ × ℤ) (j i : ℤ) : Prop :=
  ¬(d.1 = 0 ∧ d.2 = 0) ∧
  (0 ≤ x + d.1 ∧ x + d.1 < res ∧ 0 ≤ y + d.2 ∧ y + d.2 < res) ∧
  j = y + d.2 ∧ i = x + d.1

/-- The effect of one `add_paint` position on the value of cell
`(j, i)`: out-of-tolerance positions change nothing; the primary cell
gets a clamped add of the full intensity; a cell at offset
`(i - x, j - y)` within the Chebyshev-2 neighbourhood and in bounds
gets a clamped add of the spread weight; all other cells are
unchanged.  (Proved below to agree with `depositPos` pointwise.) -/
def hitEffect (m : WallMesh) (I : ℝ) (p : Vec3) (j i : ℤ) (v : ℝ) : ℝ :=
  if |p.z| < 0.2 then
    let xy := worldToTexture m p
    if j = xy.2 ∧ i = xy.1 then min 1 (v + I)
    else if (-2 ≤ i - xy.1 ∧ i - xy.1 ≤ 2 ∧ -2 ≤ j - xy.2 ∧ j - xy.2 ≤ 2) ∧
        (0 ≤ i ∧ i < m.resolution ∧ 0 ≤ j ∧ j < m.resolution) then
      min 1 (v + spreadWeight I (i - xy.1, j - xy.2))
    else v
  else v

/-- One particle of the simulation state: the `tid`-th entries of the
`positions`, `velocities`, `active` and `hit_wall` arrays. -/
structure Particle where
  pos : Vec3
  vel : Vec3
  active : Bool
  hit : Bool

/-- Model of `spray_update_kernel` for one particle: inactive particles are
untouched; otherwise advance the position by `velocity * dt`, record a
hit and deactivate when the z-coordinate crosses from above the wall
plane to at-or-below it, and otherwise deactivate (without a hit) when
the particle falls far below the plane or strays more than 10 units
from the origin. -/
def updateParticle (dt wall_z : ℝ) (p : Particle) : Particle :=
  if p.active = false then p
  else
    let new_pos := vadd p.pos (vsmul dt p.vel)
    if p.pos.z > wall_z ∧ new_pos.z ≤ wall_z then
      { pos := new_pos, vel := p.vel, active := false, hit := true }
    else if new_pos.z < wall_z - 0.5 ∨ vlen new_pos > 10 then
      { pos := new_pos, vel := p.vel, active := false, hit := p.hit }
    else
      { pos := new_pos, vel := p.vel, active := p.active, hit := p.hit }

/-- Model of `wp.randf(rng, lo, hi)`: the k-th draw of the thread stream `rng`,
scaled from `[0,1)` to `[lo, hi)`. -/
def randf (rng : ℕ → ℝ) (k : ℕ) (lo hi : ℝ) : ℝ := lo + (hi - lo) * rng k

/-- Model of `spray_emission_kernel` for thread `tid`: initialise the per-thread
random stream from `(random_seed + tid, tid)`, draw the (unused) fan
angle, the two lateral spreads, build the normalized direction from the
spray direction plus the lateral spreads, draw the positional jitter,
and return the start position together with `direction * spray_speed`.
The draws happen in source order (stream indices 0..4).  `angle_rad`,
`cos_angle` and `sin_angle` are computed by the source and never used. -/
def sprayEmissionKernel (u : ℤ → ℤ → ℕ → ℝ) (nozzle_pos spray_dir : Vec3)
    (spray_width spray_speed fan_angle : ℝ) (random_seed tid : ℤ) :
    Vec3 × Vec3 :=
  let rng := u (random_seed + tid) tid
  let angle_rad := randf rng 0 (-fan_angle) fan_angle * 3.14159 / 180.0
  let spread_x := randf rng 1 (-spray_width) spray_width * 0.5
  let spread_y := randf rng 2 (-spray_width) spray_width * 0.5
  let right : Vec3 := ⟨1, 0, 0⟩
  let up : Vec3 := ⟨0, 1, 0⟩
  let cos_angle := Real.cos angle_rad
  let sin_angle := Real.sin angle_rad
  let direction :=
    vnormalize (vadd (vadd spray_dir (vsmul spread_x right)) (vsmul spread_y up))
  let offset_x := randf rng 3 (-0.1) 0.1
  let offset_y := randf rng 4 (-0.1) 0.1
  let start_pos := vadd nozzle_pos ⟨offset_x, offset_y, 0⟩
  (start_pos, vsmul spray_speed direction)

/-- Model of `SpraySimulator.collect_paint_hits`: the positions of the particles
whose hit flag is set, each projected onto the wall plane `z = 0`,
in index order. -/
def collectPaintHits (n : ℕ) (pos : ℕ → Vec3) (hit : ℕ → Bool) :
    List Vec3 :=
  (((List.range n).filter fun i => hit i).map fun i =>
    ⟨(pos i).x, (pos i).y, 0⟩)

/-- Model of `SpraySimulator.move_nozzle`: advance x at the fixed speed `0.8`;
wrap x to `-1.8` (stepping y up by `0.4`) when x passes `1.8`; wrap y
to `-1.2` when y passes `1.2`.  The z-component is untouched. -/
def moveNozzle (p : Vec3) (dt : ℝ) : Vec3 :=
  let x1 := p.x + 0.8 * dt
  let xy :=
    if x1 > 1.8 then ((-1.8 : ℝ), p.y + 0.4) else (x1, p.y)
  let y2 := if xy.2 > 1.2 then (-1.2 : ℝ) else xy.2
  ⟨xy.1, y2, p.z⟩

/-- The mutable state of `SpraySimulator`: the four particle arrays,
the clock, the frame counter, the nozzle pose and the wall. -/
structure SimState where
  positions : ℕ → Vec3
  velocities : ℕ → Vec3
  active : ℕ → Bool
  hitWall : ℕ → Bool
  time : ℝ
  frame : ℕ
  nozzle : Vec3
  sprayDir : Vec3
  wall : WallMesh

/-- Model of `SpraySimulator.__init__`: zeroed particle arrays, clock and frame
at zero, nozzle at `(-1.8, -1.2, nozzle_distance)`, spray direction
`(0, 0, -1)`, and a default `WallMesh()` (4 × 3 wall, resolution 128). -/
def simInit (cfg : SprayParameters) : SimState :=
  { positions := fun _ => ⟨0, 0, 0⟩
    velocities := fun _ => ⟨0, 0, 0⟩
    active := fun _ => false
    hitWall := fun _ => false
    time := 0
    frame := 0
    nozzle := ⟨-1.8, -1.2, cfg.nozzle_distance⟩
    sprayDir := ⟨0, 0, -1⟩
    wall := wallMeshInit 4 3 128 }

/-- One iteration of the loop body of `SpraySimulator.run_simulation`:
advance the clock, emit a fresh batch with seed `frame * 1000` (all
particles active, hit flags cleared, positions/velocities from the
emission kernel at spray speed `8.0`), run the update kernel five times
with `dt / 5` against the wall plane `z = 0`, collect the hits, deposit
them with the configured paint intensity when there is at least one,
and move the nozzle. -/
def frameStep (u : ℤ → ℤ → ℕ → ℝ) (cfg : SprayParameters) (dt : ℝ)
    (s : SimState) : SimState :=
  let seed : ℤ := (s.frame : ℤ) * 1000
  let emit := fun tid : ℕ =>
    sprayEmissionKernel u s.nozzle s.sprayDir cfg.spray_width 8.0
      cfg.fan_angle seed (tid : ℤ)
  let parts := fun tid : ℕ =>
    (fun q => updateParticle (dt / 5) 0 q)^[5]
      { pos := (emit tid).1, vel := (emit tid).2, active := true, hit := false }
  let hits := collectPaintHits cfg.spray_density
    (fun i => (parts i).pos) (fun i => (parts i).hit)
  { positions := fun i => (parts i).pos
    velocities := fun i => (parts i).vel
    active := fun i => (parts i).active
    hitWall := fun i => (parts i).hit
    time := s.time + dt
    frame := s.frame + 1
    nozzle := moveNozzle s.nozzle dt
    sprayDir := s.sprayDir
    wall := if 0 < hits.length
      then addPaint s.wall hits cfg.paint_intensity
      else s.wall }

/-- The frame-step transition relation of `run_simulation`: a state
steps to the result of `frameStep` on it. -/
inductive SimStep (u : ℤ → ℤ → ℕ → ℝ) (cfg : SprayParameters) (dt : ℝ) :
    SimState → SimState → Prop
  | mk (s : SimState) : SimStep u cfg dt s (frameStep u cfg dt s)

/-- Iterated frame steps: `n` consecutive frame steps of `run_simulation`. -/
inductive SimRun (u : ℤ → ℤ → ℕ → ℝ) (cfg : SprayParameters) (dt : ℝ) :
    ℕ → SimState → SimState → Prop
  | zero (s : SimState) : SimRun u cfg dt 0 s s
  | succ {n : ℕ} {s t t' : SimState} : SimRun u cfg dt n s t →
      SimStep u cfg dt t t' → SimRun u cfg dt (n + 1) s t'

/-- The all-zero random stream, used to instantiate theorems at a
concrete input. -/
def streamZero : ℤ → ℤ → ℕ → ℝ := fun _ _ _ => 0

/-- A grid whose every cell lies in the unit interval. -/
def gridInUnit (g : ℤ → ℤ → ℝ) : Prop := ∀ j i, 0 ≤ g j i ∧ g j i ≤ 1

/-- Claim C2: the claim asserts that constructing `SprayParameters` or
`WallMesh` with non-positive width, height, resolution (or the other
listed parameters) raises a `ConfigurationError` with no partial state
created.  The source performs no validation: `WallMesh(-1, 3, 128)`
constructs successfully, with every field fully initialised. -/
theorem wallMesh_invalid_width_constructs :
    (wallMeshInitE (-1) 3 128).isOk = true ∧
    ∃ m : WallMesh, wallMeshInitE (-1) 3 128 = Except.ok m ∧
      m.width = -1 ∧ m.height = 3 ∧ m.resolution = 128 ∧
      (∀ j i, m.paint_coverage j i = 0) ∧
      m.vertices = createMeshVertices (-1) 3 ∧
      m.faces = [(0, 1, 2), (0, 2, 3)] := by
  have he : wallMeshInitE (-1) 3 128 =
      Except.ok (wallMeshInit (-1) 3 128) := by
    unfold wallMeshInitE
    rw [if_neg (by norm_num : ¬ (128 : ℤ) < 0)]
  exact ⟨by rw [he]; rfl, wallMeshInit (-1) 3 128, he, rfl, rfl, rfl,
    fun _ _ => rfl, rfl, rfl⟩

/-- Claim C2 (amended): construction performs no parameter validation
of its own and never raises a `ConfigurationError`.  For any width and
height — non-positive included — and any non-negative resolution,
`WallMesh.__init__` succeeds and fully initialises its state with an
all-zero coverage grid; the only construction-time failure is NumPy's
`ValueError` from `np.zeros` when the resolution is negative (which is
not a `ConfigurationError`, and width/height play no part in it).
`SprayParameters.__init__` accepts no parameters at all and always
succeeds. -/
theorem construction_never_validates :
    (∀ (w h : ℝ) (r : ℤ),
      wallMeshInitE w h r ≠ Except.error PyError.configurationError) ∧
    (∀ (w h : ℝ) (r : ℤ), 0 ≤ r → ∃ m : WallMesh,
      wallMeshInitE w h r = Except.ok m ∧ m.width = w ∧ m.height = h ∧
        m.resolution = r ∧ ∀ j i, m.paint_coverage j i = 0) ∧
    (∀ (w h : ℝ) (r : ℤ), r < 0 →
      wallMeshInitE w h r = Except.error PyError.valueError) ∧
    sprayParametersInitE = Except.ok sprayParametersInit := by
  refine ⟨?_, ?_, ?_, rfl⟩
  · intro w h r
    unfold wallMeshInitE
    split_ifs <;> simp
  · intro w h r hr
    unfold wallMeshInitE
    rw [if_neg (not_lt.mpr hr)]
    exact ⟨wallMeshInit w h r, rfl, rfl, rfl, rfl, fun _ _ => rfl⟩
  · intro w h r hr
    unfold wallMeshInitE
    rw [if_pos hr]

/-- Witness for C2 (amended): with non-positive width `-1` but
non-negative resolution `128`, construction succeeds with full state;
with negative resolution `-1`, construction fails with NumPy's
`ValueError`, not a `ConfigurationError`. -/
theorem construction_never_validates_witness :
    ((0 : ℤ) ≤ 128) ∧
    (∃ m : WallMesh, wallMeshInitE (-1) 3 128 = Except.ok m ∧
      m.width = -1 ∧ m.height = 3 ∧ m.resolution = 128 ∧
      ∀ j i, m.paint_coverage j i = 0) ∧
    ((-1 : ℤ) < 0) ∧
    wallMeshInitE 4 3 (-1) = Except.error PyError.valueError ∧
    wallMeshInitE 4 3 (-1) ≠ Except.error PyError.configurationError :=
  ⟨by norm_num,
    construction_never_validates.2.1 (-1) 3 128 (by norm_num),
    by norm_num,
    construction_never_validates.2.2.1 4 3 (-1) (by norm_num),
    construction_never_validates.1 4 3 (-1)⟩

/-- Claim C3: the emission kernel's output is entirely independent of
the fan-angle parameter — `angle_rad`, `cos_angle` and `sin_angle` are
computed from it and then never used, so the emitted position and
velocity are identical for any two fan angles given the same stream,
seed and other parameters.  This contradicts the claim (and the
kernel's own comment) that the fan angle bounds an angular
perturbation of the emitted direction. -/
theorem sprayEmissionKernel_ignores_fan_angle
    (u : ℤ → ℤ → ℕ → ℝ) (nozzle_pos spray_dir : Vec3)
    (spray_width spray_speed fan_angle fan_angle' : ℝ)
    (random_seed tid : ℤ) :
    sprayEmissionKernel u nozzle_pos spray_dir spray_width spray_speed
      fan_angle random_seed tid =
    sprayEmissionKernel u nozzle_pos spray_dir spray_width spray_speed
      fan_angle' random_seed tid := rfl

theorem clampAdd_bounds (v w : ℝ) (hv : 0 ≤ v) (hw : 0 ≤ w) :
    0 ≤ min 1 (v + w) ∧ min 1 (v + w) ≤ 1 :=
  ⟨le_min (by norm_num) (by linarith), min_le_left _ _⟩

theorem spreadWeight_nonneg (I : ℝ) (hI : 0 ≤ I) (d : ℤ × ℤ) :
    0 ≤ spreadWeight I d :=
  mul_nonneg (mul_nonneg hI (by norm_num [falloff_factor])) (le_max_left 0 _)

theorem updateCell_inUnit {g : ℤ → ℤ → ℝ} {v : ℝ} (y x : ℤ)
    (hg : gridInUnit g) (hv0 : 0 ≤ v) (hv1 : v ≤ 1) :
    gridInUnit (updateCell g y x v) := by
  intro j i
  unfold updateCell
  split
  · exact ⟨hv0, hv1⟩
  · exact hg j i

theorem neighborStep_inUnit {g : ℤ → ℤ → ℝ} {I : ℝ} (res x y : ℤ)
    (hI : 0 ≤ I) (d : ℤ × ℤ) (hg : gridInUnit g) :
    gridInUnit (neighborStep res x y I g d) := by
  unfold neighborStep
  dsimp only
  split_ifs
  · exact hg
  · have hb := clampAdd_bounds (g (y + d.2) (x + d.1)) (spreadWeight I d)
      (hg _ _).1 (spreadWeight_nonneg I hI d)
    exact updateCell_inUnit _ _ hg hb.1 hb.2
  · exact hg

theorem foldl_preserve_mem {α β : Type} (f : β → α → β) (P : β → Prop) :
    ∀ (L : List α) (b : β), (∀ b' a, a ∈ L → P b' → P (f b' a)) → P b →
      P (L.foldl f b)
  | [], _, _, hb => hb
  | a :: L, b, hf, hb =>
      foldl_preserve_mem f P L (f b a)
        (fun b' a' ha' => hf b' a' (List.mem_cons_of_mem a ha'))
        (hf b a (List.mem_cons_self a L) hb)

theorem depositPos_inUnit (m : WallMesh) (I : ℝ) (p : Vec3) (hI : 0 ≤ I)
    (hg : gridInUnit m.paint_coverage) :
    gridInUnit (depositPos m I p).paint_coverage := by
  unfold depositPos
  split_ifs
  · have h1 : gridInUnit (updateCell m.paint_coverage
        (worldToTexture m p).2 (worldToTexture m p).1
        (min 1 (m.paint_coverage (worldToTexture m p).2
          (worldToTexture m p).1 + I))) := by
      have hb := clampAdd_bounds (m.paint_coverage (worldToTexture m p).2
        (worldToTexture m p).1) I (hg _ _).1 hI
      exact updateCell_inUnit _ _ hg hb.1 hb.2
    exact foldl_preserve_mem _ gridInUnit spreadOffsets _
      (fun g' d _ hg' => neighborStep_inUnit _ _ _ hI d hg') h1
  · exact hg

theorem addPaint_inUnit (m : WallMesh) (ps : List Vec3) (I : ℝ)
    (hI : 0 ≤ I) (hg : gridInUnit m.paint_coverage) :
    gridInUnit (addPaint m ps I).paint_coverage :=
  foldl_preserve_mem _ (fun mm => gridInUnit mm.paint_coverage) ps m
    (fun mm p _ hg' => depositPos_inUnit mm I p hI hg') hg

/-- Claim C1: the coverage grid is all zeros at construction, and after
any sequence of `add_paint` calls with non-negative intensities every
cell remains within `[0, 1]`. -/
theorem paint_coverage_unit_interval (w h : ℝ) (r : ℤ)
    (ops : List (List Vec3 × ℝ)) (hops : ∀ op ∈ ops, 0 ≤ op.2) :
    (∀ j i, (wallMeshInit w h r).paint_coverage j i = 0) ∧
    ∀ j i,
      0 ≤ (ops.foldl (fun mm op => addPaint mm op.1 op.2)
        (wallMeshInit w h r)).paint_coverage j i ∧
      (ops.foldl (fun mm op => addPaint mm op.1 op.2)
        (wallMeshInit w h r)).paint_coverage j i ≤ 1 := by
  refine ⟨fun _ _ => rfl, ?_⟩
  exact foldl_preserve_mem _ (fun mm => gridInUnit mm.paint_coverage) ops
    (wallMeshInit w h r)
    (fun mm op hop hg => addPaint_inUnit mm op.1 op.2 (hops op hop) hg)
    (fun _ _ => ⟨le_refl 0, by show (0 : ℝ) ≤ 1; norm_num⟩)

/-- Witness for C1: after a single `add_paint` of one centred hit with
intensity `0.15` on the default wall, the cell `(64, 64)` lies in
`[0, 1]`. -/
theorem paint_coverage_unit_interval_witness :
    0 ≤ (addPaint (wallMeshInit 4 3 128) [⟨0, 0, 0⟩] 0.15).paint_coverage
      64 64 ∧
    (addPaint (wallMeshInit 4 3 128) [⟨0, 0, 0⟩] 0.15).paint_coverage
      64 64 ≤ 1 := by
  have h := paint_coverage_unit_interval 4 3 128 [([⟨0, 0, 0⟩], 0.15)]
    (by
      intro op hop
      rw [List.mem_singleton] at hop
      rw [hop]
      norm_num)
  exact h.2 64 64

theorem updateParticle_away_invariant (wall_z dt : ℝ) (q : Particle)
    (hdt : 0 ≤ dt)
    (hq : q.hit = false ∧ wall_z < q.pos.z ∧ 0 ≤ q.vel.z ∧
      (q.active = true → vlen q.pos ≤ 10)) :
    (updateParticle dt wall_z q).hit = false ∧
    wall_z < (updateParticle dt wall_z q).pos.z ∧
    0 ≤ (updateParticle dt wall_z q).vel.z ∧
    ((updateParticle dt wall_z q).active = true →
      vlen (updateParticle dt wall_z q).pos ≤ 10) := by
  obtain ⟨hh, hz, hv, hb⟩ := hq
  unfold updateParticle
  by_cases hqa : q.active = false
  · rw [if_pos hqa]
    exact ⟨hh, hz, hv, hb⟩
  · rw [if_neg hqa]
    have hnz : wall_z < (vadd q.pos (vsmul dt q.vel)).z := by
      have : 0 ≤ dt * q.vel.z := mul_nonneg hdt hv
      show wall_z < q.pos.z + dt * q.vel.z
      linarith
    rw [if_neg (fun hcon => absurd hcon.2 (not_le.mpr hnz))]
    split_ifs with h2
    · exact ⟨hh, hnz, hv, fun hfalse => absurd hfalse (by simp)⟩
    · push_neg at h2
      exact ⟨hh, hnz, hv, fun _ => h2.2⟩

/-- Claim C9: a particle starting above the wall plane with a velocity
whose z-component is non-negative (pointing away from the wall) never
sets its hit flag over any sequence of non-negative sub-steps, and
whenever it is still active its distance from the origin is at most the
fixed bound `10` — equivalently, once a sub-step carries it beyond
distance `10` it is deactivated without a hit. -/
theorem away_pointing_particle_never_hits (wall_z : ℝ) (dts : List ℝ)
    (p : Particle) (hdts : ∀ dt ∈ dts, 0 ≤ dt) (hh : p.hit = false)
    (hz : wall_z < p.pos.z) (hv : 0 ≤ p.vel.z) (hb : vlen p.pos ≤ 10) :
    (dts.foldl (fun q dt => updateParticle dt wall_z q) p).hit = false ∧
    ((dts.foldl (fun q dt => updateParticle dt wall_z q) p).active = true →
      vlen (dts.foldl (fun q dt => updateParticle dt wall_z q) p).pos ≤ 10) := by
  have h := foldl_preserve_mem (fun q dt => updateParticle dt wall_z q)
    (fun q => q.hit = false ∧ wall_z < q.pos.z ∧ 0 ≤ q.vel.z ∧
      (q.active = true → vlen q.pos ≤ 10)) dts p
    (fun q dt hdt hq => updateParticle_away_invariant wall_z dt q
      (hdts dt hdt) hq)
    ⟨hh, hz, hv, fun _ => hb⟩
  exact ⟨h.1, h.2.2.2⟩

/-- Witness for C9: the active particle at `(0,0,1)` with upward
velocity `(0,0,1)` keeps its hit flag clear over the sub-step list
`[1]` and respects the distance bound while active. -/
theorem away_pointing_particle_never_hits_witness :
    (([1] : List ℝ).foldl (fun q dt => updateParticle dt 0 q)
      ⟨⟨0, 0, 1⟩, ⟨0, 0, 1⟩, true, false⟩).hit = false ∧
    ((([1] : List ℝ).foldl (fun q dt => updateParticle dt 0 q)
      ⟨⟨0, 0, 1⟩, ⟨0, 0, 1⟩, true, false⟩).active = true →
      vlen (([1] : List ℝ).foldl (fun q dt => updateParticle dt 0 q)
        ⟨⟨0, 0, 1⟩, ⟨0, 0, 1⟩, true, false⟩).pos ≤ 10) := by
  refine away_pointing_particle_never_hits 0 [1]
    ⟨⟨0, 0, 1⟩, ⟨0, 0, 1⟩, true, false⟩ ?_ rfl ?_ ?_ ?_
  · intro dt hdt
    rw [List.mem_singleton] at hdt
    rw [hdt]
    norm_num
  · show (0 : ℝ) < 1
    norm_num
  · show (0 : ℝ) ≤ 1
    norm_num
  · show Real.sqrt (0 * 0 + 0 * 0 + 1 * 1) ≤ 10
    rw [show (0 : ℝ) * 0 + 0 * 0 + 1 * 1 = 1 by norm_num, Real.sqrt_one]
    norm_num

/-- Claim C7: `move_nozzle` is a deterministic boustrophedon sweep: x
advances by the fixed speed `0.8` times `dt`; when the advanced x
exceeds the right bound `1.8`, x wraps to `-1.8` and y steps up by
`0.4` exactly once; when the resulting y exceeds the top bound `1.2`,
y wraps to `-1.2`; otherwise y is unchanged; z is untouched.  The
function depends only on the previous position and `dt`. -/
theorem moveNozzle_boustrophedon (p : Vec3) (dt : ℝ) :
    (moveNozzle p dt).z = p.z ∧
    (p.x + 0.8 * dt ≤ 1.8 →
      (moveNozzle p dt).x = p.x + 0.8 * dt ∧
      (p.y ≤ 1.2 → (moveNozzle p dt).y = p.y) ∧
      (p.y > 1.2 → (moveNozzle p dt).y = -1.2)) ∧
    (p.x + 0.8 * dt > 1.8 →
      (moveNozzle p dt).x = -1.8 ∧
      (p.y + 0.4 ≤ 1.2 → (moveNozzle p dt).y = p.y + 0.4) ∧
      (p.y + 0.4 > 1.2 → (moveNozzle p dt).y = -1.2)) := by
  unfold moveNozzle
  dsimp only
  split_ifs with h1 h2 h2 <;>
    refine ⟨rfl, fun hx => ?_, fun hx => ?_⟩
  · exact absurd h1 (not_lt.mpr hx)
  · exact ⟨rfl, fun hy => absurd h2 (not_lt.mpr hy), fun _ => rfl⟩
  · exact absurd h1 (not_lt.mpr hx)
  · exact ⟨rfl, fun _ => rfl, fun hy => absurd hy h2⟩
  · exact ⟨rfl, fun hy => absurd h2 (not_lt.mpr hy), fun _ => rfl⟩
  · exact absurd hx h1
  · exact ⟨rfl, fun _ => rfl, fun hy => absurd hy h2⟩
  · exact absurd hx h1

/-- Witness for C7: from `(1.7, 0, 0.8)` with `dt = 1`, the advanced x
`2.5` exceeds `1.8`, so x wraps to `-1.8` and y steps to `0.4`. -/
theorem moveNozzle_boustrophedon_witness :
    ((1.7 : ℝ) + 0.8 * 1 > 1.8) ∧
    (moveNozzle ⟨1.7, 0, 0.8⟩ 1).x = -1.8 ∧
    (moveNozzle ⟨1.7, 0, 0.8⟩ 1).y = 0 + 0.4 := by
  have h := (moveNozzle_boustrophedon ⟨1.7, 0, 0.8⟩ 1).2.2 (by norm_num)
  exact ⟨by norm_num, h.1, h.2.1 (by norm_num)⟩

/-- Claim C10: every point returned by `collect_paint_hits` is the hit
particle's position projected onto the wall plane, so its z-coordinate
is exactly `0`; consequently the tolerance-band test `|z| < 0.2` of
`add_paint` (the guard of `depositPos`) accepts it and the discard
branch is unreachable for pipeline-produced hit points. -/
theorem collectPaintHits_on_wall_plane (n : ℕ) (pos : ℕ → Vec3)
    (hit : ℕ → Bool) (q : Vec3) (hq : q ∈ collectPaintHits n pos hit) :
    q.z = 0 ∧ |q.z| < 0.2 := by
  simp only [collectPaintHits, List.mem_map] at hq
  obtain ⟨i, -, rfl⟩ := hq
  refine ⟨rfl, ?_⟩
  show |(0 : ℝ)| < 0.2
  rw [abs_zero]
  norm_num

/-- Witness for C10: a one-particle array whose particle hit the wall at
`(1/2, 1/2, -0.01)` yields the projected hit point `(1/2, 1/2, 0)`,
which has z-coordinate `0` within the tolerance band. -/
theorem collectPaintHits_on_wall_plane_witness :
    (⟨1 / 2, 1 / 2, 0⟩ : Vec3) ∈
      collectPaintHits 1 (fun _ => ⟨1 / 2, 1 / 2, -0.01⟩) (fun _ => true) ∧
    (⟨1 / 2, 1 / 2, 0⟩ : Vec3).z = 0 ∧ |(⟨1 / 2, 1 / 2, 0⟩ : Vec3).z| < 0.2 := by
  have hmem : (⟨1 / 2, 1 / 2, 0⟩ : Vec3) ∈
      collectPaintHits 1 (fun _ => ⟨1 / 2, 1 / 2, -0.01⟩) (fun _ => true) := by
    refine List.mem_map.mpr ⟨0, ?_, rfl⟩
    simp
  exact ⟨hmem, collectPaintHits_on_wall_plane 1 _ _ _ hmem⟩

/-- Claim C4: for an active particle in one sub-step, the new position
is `position + velocity * dt`, and a hit is recorded (with the particle
deactivated) exactly when the z-coordinate was strictly above the wall
plane before the sub-step and at-or-below it after; a particle that
does not straddle the plane records no hit in that sub-step. -/
theorem updateParticle_step_spec (dt wall_z : ℝ) (p : Particle)
    (ha : p.active = true) (hh : p.hit = false) :
    (updateParticle dt wall_z p).pos = vadd p.pos (vsmul dt p.vel) ∧
    ((updateParticle dt wall_z p).hit = true ↔
      p.pos.z > wall_z ∧ (vadd p.pos (vsmul dt p.vel)).z ≤ wall_z) ∧
    (p.pos.z > wall_z ∧ (vadd p.pos (vsmul dt p.vel)).z ≤ wall_z →
      (updateParticle dt wall_z p).active = false) := by
  unfold updateParticle
  rw [ha]
  simp only [Bool.true_eq_false, if_false]
  split_ifs with h1 h2
  · exact ⟨rfl, by simpa using h1, fun _ => rfl⟩
  · exact ⟨rfl, by simpa [hh] using h1, fun hs => absurd hs h1⟩
  · exact ⟨rfl, by simpa [hh] using h1, fun hs => absurd hs h1⟩

/-- Witness for C4: the active, not-yet-hit particle at `(0,0,1)` with
velocity `(0,0,-2)` straddles the wall plane `z = 0` in a sub-step of
`dt = 1`, so it records a hit and is deactivated. -/
theorem updateParticle_step_spec_witness :
    (updateParticle 1 0 ⟨⟨0, 0, 1⟩, ⟨0, 0, -2⟩, true, false⟩).pos =
      vadd ⟨0, 0, 1⟩ (vsmul 1 ⟨0, 0, -2⟩) ∧
    (updateParticle 1 0 ⟨⟨0, 0, 1⟩, ⟨0, 0, -2⟩, true, false⟩).hit = true ∧
    (updateParticle 1 0 ⟨⟨0, 0, 1⟩, ⟨0, 0, -2⟩, true, false⟩).active = false := by
  have h := updateParticle_step_spec 1 0
    ⟨⟨0, 0, 1⟩, ⟨0, 0, -2⟩, true, false⟩ rfl rfl
  have hs : (⟨⟨0, 0, 1⟩, ⟨0, 0, -2⟩, true, false⟩ : Particle).pos.z > 0 ∧
      (vadd (⟨⟨0, 0, 1⟩, ⟨0, 0, -2⟩, true, false⟩ : Particle).pos
        (vsmul 1 (⟨⟨0, 0, 1⟩, ⟨0, 0, -2⟩, true, false⟩ : Particle).vel)).z ≤ 0 := by
    constructor
    · norm_num
    · show (1 : ℝ) + 1 * -2 ≤ 0
      norm_num
  exact ⟨h.1, h.2.1.mpr hs, h.2.2 hs⟩

theorem mem_spreadOffsets (d : ℤ × ℤ) :
    d ∈ spreadOffsets ↔ -2 ≤ d.1 ∧ d.1 ≤ 2 ∧ -2 ≤ d.2 ∧ d.2 ≤ 2 := by
  obtain ⟨a, b⟩ := d
  simp only [spreadOffsets, List.mem_flatMap, List.mem_map, List.mem_cons,
    List.mem_singleton, List.not_mem_nil, or_false, Prod.mk.injEq]
  constructor
  · rintro ⟨x, hx, y, hy, hxa, hyb⟩
    subst hxa
    subst hyb
    omega
  · rintro ⟨h1, h2, h3, h4⟩
    exact ⟨a, by omega, b, by omega, rfl, rfl⟩

theorem nodup_spreadOffsets : spreadOffsets.Nodup := by decide

theorem neighborStep_apply_untouched (res x y : ℤ) (I : ℝ)
    (g : ℤ → ℤ → ℝ) (d : ℤ × ℤ) (j i : ℤ)
    (h : ¬ touchCond res x y d j i) :
    neighborStep res x y I g d j i = g j i := by
  unfold neighborStep
  dsimp only
  split_ifs with hc hb
  · rfl
  · unfold updateCell
    rw [if_neg fun hji => h ⟨hc, hb, hji.1, hji.2⟩]
  · rfl

theorem neighborStep_apply_touched (res x y : ℤ) (I : ℝ)
    (g : ℤ → ℤ → ℝ) (d : ℤ × ℤ) (j i : ℤ)
    (h : touchCond res x y d j i) :
    neighborStep res x y I g d j i = min 1 (g j i + spreadWeight I d) := by
  obtain ⟨hc, hb, hj, hi⟩ := h
  unfold neighborStep
  dsimp only
  rw [if_neg hc, if_pos hb]
  unfold updateCell
  rw [if_pos ⟨hj, hi⟩, hj, hi]

theorem foldl_neighborStep_untouched (res x y : ℤ) (I : ℝ) :
    ∀ (L : List (ℤ × ℤ)) (g : ℤ → ℤ → ℝ) (j i : ℤ),
      (∀ d ∈ L, ¬ touchCond res x y d j i) →
      L.foldl (neighborStep res x y I) g j i = g j i
  | [], _, _, _, _ => rfl
  | a :: L, g, j, i, h => by
      rw [List.foldl_cons,
        foldl_neighborStep_untouched res x y I L _ j i
          (fun d hd => h d (List.mem_cons_of_mem a hd)),
        neighborStep_apply_untouched res x y I g a j i
          (h a (List.mem_cons_self a L))]

theorem foldl_neighborStep_touched (res x y : ℤ) (I : ℝ) :
    ∀ (L : List (ℤ × ℤ)) (g : ℤ → ℤ → ℝ) (j i : ℤ) (d₀ : ℤ × ℤ),
      L.Nodup → d₀ ∈ L → touchCond res x y d₀ j i →
      (∀ d ∈ L, d ≠ d₀ → ¬ touchCond res x y d j i) →
      L.foldl (neighborStep res x y I) g j i =
        min 1 (g j i + spreadWeight I d₀)
  | [], _, _, _, _, _, hmem, _, _ => absurd hmem (List.not_mem_nil _)
  | a :: L, g, j, i, d₀, hnd, hmem, ht, hothers => by
      rw [List.foldl_cons]
      rcases List.mem_cons.mp hmem with rfl | hmemL
      · rw [foldl_neighborStep_untouched res x y I L _ j i
          (fun d hd => by
            rcases eq_or_ne d d₀ with rfl | hne
            · exact absurd hd (List.nodup_cons.mp hnd).1
            · exact hothers d (List.mem_cons_of_mem d₀ hd) hne),
          neighborStep_apply_touched res x y I g d₀ j i ht]
      · have ha : ¬ touchCond res x y a j i := by
          rcases eq_or_ne a d₀ with rfl | hne
          · exact absurd hmemL (List.nodup_cons.mp hnd).1
          · exact hothers a (List.mem_cons_self a L) hne
        rw [foldl_neighborStep_touched res x y I L _ j i d₀
            (List.nodup_cons.mp hnd).2 hmemL ht
            (fun d hd => hothers d (List.mem_cons_of_mem a hd)),
          neighborStep_apply_untouched res x y I g a j i ha]

theorem depositPos_apply (m : WallMesh) (I : ℝ) (p : Vec3) (j i : ℤ) :
    (depositPos m I p).paint_coverage j i =
      hitEffect m I p j i (m.paint_coverage j i) := by
  by_cases hz : |p.z| < 0.2
  · unfold depositPos hitEffect
    rw [if_pos hz, if_pos hz]
    dsimp only
    by_cases hprim : j = (worldToTexture m p).2 ∧ i = (worldToTexture m p).1
    · rw [if_pos hprim]
      have hnotouch : ∀ d ∈ spreadOffsets,
          ¬ touchCond m.resolution (worldToTexture m p).1
            (worldToTexture m p).2 d j i := by
        intro d _ hcon
        obtain ⟨hc, -, hj, hi⟩ := hcon
        obtain ⟨hp1, hp2⟩ := hprim
        exact hc ⟨by omega, by omega⟩
      rw [foldl_neighborStep_untouched _ _ _ I spreadOffsets _ j i hnotouch]
      unfold updateCell
      rw [if_pos hprim, hprim.1, hprim.2]
    · rw [if_neg hprim]
      have hg1 : updateCell m.paint_coverage (worldToTexture m p).2
          (worldToTexture m p).1
          (min 1 (m.paint_coverage (worldToTexture m p).2
            (worldToTexture m p).1 + I)) j i = m.paint_coverage j i := by
        unfold updateCell
        rw [if_neg hprim]
      by_cases hnb : (-2 ≤ i - (worldToTexture m p).1 ∧
          i - (worldToTexture m p).1 ≤ 2 ∧
          -2 ≤ j - (worldToTexture m p).2 ∧
          j - (worldToTexture m p).2 ≤ 2) ∧
          (0 ≤ i ∧ i < m.resolution ∧ 0 ≤ j ∧ j < m.resolution)
      · rw [if_pos hnb]
        obtain ⟨⟨hb1, hb2, hb3, hb4⟩, hb5, hb6, hb7, hb8⟩ := hnb
        have ht : touchCond m.resolution (worldToTexture m p).1
            (worldToTexture m p).2
            (i - (worldToTexture m p).1, j - (worldToTexture m p).2) j i := by
          unfold touchCond
          dsimp only
          refine ⟨?_, ⟨by omega, by omega, by omega, by omega⟩, by omega,
            by omega⟩
          intro hzero
          exact hprim ⟨by omega, by omega⟩
        have hmem0 : (i - (worldToTexture m p).1,
            j - (worldToTexture m p).2) ∈ spreadOffsets := by
          rw [mem_spreadOffsets]
          dsimp only
          exact ⟨by omega, by omega, by omega, by omega⟩
        have hothers : ∀ d ∈ spreadOffsets,
            d ≠ (i - (worldToTexture m p).1, j - (worldToTexture m p).2) →
            ¬ touchCond m.resolution (worldToTexture m p).1
              (worldToTexture m p).2 d j i := by
          intro d _ hne hcon
          obtain ⟨-, -, hj, hi⟩ := hcon
          refine hne (Prod.ext_iff.mpr ⟨?_, ?_⟩) <;> dsimp only <;> omega
        rw [foldl_neighborStep_touched _ _ _ I spreadOffsets _ j i _
          nodup_spreadOffsets hmem0 ht hothers, hg1]
      · rw [if_neg hnb]
        have hnotouch : ∀ d ∈ spreadOffsets,
            ¬ touchCond m.resolution (worldToTexture m p).1
              (worldToTexture m p).2 d j i := by
          intro d hd hcon
          obtain ⟨hc, ⟨q1, q2, q3, q4⟩, hj, hi⟩ := hcon
          obtain ⟨w1, w2, w3, w4⟩ := (mem_spreadOffsets d).mp hd
          exact hnb ⟨⟨by omega, by omega, by omega, by omega⟩,
            by omega, by omega, by omega, by omega⟩
        rw [foldl_neighborStep_untouched _ _ _ I spreadOffsets _ j i hnotouch,
          hg1]
  · unfold depositPos hitEffect
    rw [if_neg hz, if_neg hz]

theorem depositPos_width (m : WallMesh) (I : ℝ) (p : Vec3) :
    (depositPos m I p).width = m.width := by
  unfold depositPos
  split_ifs <;> rfl

theorem depositPos_height (m : WallMesh) (I : ℝ) (p : Vec3) :
    (depositPos m I p).height = m.height := by
  unfold depositPos
  split_ifs <;> rfl

theorem depositPos_resolution (m : WallMesh) (I : ℝ) (p : Vec3) :
    (depositPos m I p).resolution = m.resolution := by
  unfold depositPos
  split_ifs <;> rfl

theorem depositPos_vertices (m : WallMesh) (I : ℝ) (p : Vec3) :
    (depositPos m I p).vertices = m.vertices := by
  unfold depositPos
  split_ifs <;> rfl

theorem depositPos_faces (m : WallMesh) (I : ℝ) (p : Vec3) :
    (depositPos m I p).faces = m.faces := by
  unfold depositPos
  split_ifs <;> rfl

theorem hitEffect_shape (m : WallMesh) (I : ℝ) (p : Vec3) (j i : ℤ)
    (hI : 0 ≤ I) :
    (∀ v, hitEffect m I p j i v = v) ∨
    ∃ w, 0 ≤ w ∧ ∀ v, hitEffect m I p j i v = min 1 (v + w) := by
  by_cases h1 : |p.z| < 0.2
  · by_cases h2 : j = (worldToTexture m p).2 ∧ i = (worldToTexture m p).1
    · refine Or.inr ⟨I, hI, fun v => ?_⟩
      unfold hitEffect
      rw [if_pos h1]
      dsimp only
      rw [if_pos h2]
    · by_cases h3 : (-2 ≤ i - (worldToTexture m p).1 ∧
          i - (worldToTexture m p).1 ≤ 2 ∧
          -2 ≤ j - (worldToTexture m p).2 ∧
          j - (worldToTexture m p).2 ≤ 2) ∧
          (0 ≤ i ∧ i < m.resolution ∧ 0 ≤ j ∧ j < m.resolution)
      · refine Or.inr ⟨spreadWeight I (i - (worldToTexture m p).1,
          j - (worldToTexture m p).2), spreadWeight_nonneg I hI _,
          fun v => ?_⟩
        unfold hitEffect
        rw [if_pos h1]
        dsimp only
        rw [if_neg h2, if_pos h3]
      · refine Or.inl fun v => ?_
        unfold hitEffect
        rw [if_pos h1]
        dsimp only
        rw [if_neg h2, if_neg h3]
  · refine Or.inl fun v => ?_
    unfold hitEffect
    rw [if_neg h1]

theorem clampAdd_clampAdd (v w1 w2 : ℝ) (h2 : 0 ≤ w2) :
    min 1 (min 1 (v + w1) + w2) = min 1 (v + w1 + w2) := by
  rcases le_total (v + w1) 1 with h | h
  · rw [min_eq_right h]
  · rw [min_eq_left h, min_eq_left (by linarith : (1 : ℝ) ≤ 1 + w2),
      min_eq_left (by linarith : (1 : ℝ) ≤ v + w1 + w2)]

theorem clampAdd_comm (v w1 w2 : ℝ) (h1 : 0 ≤ w1) (h2 : 0 ≤ w2) :
    min 1 (min 1 (v + w1) + w2) = min 1 (min 1 (v + w2) + w1) := by
  rw [clampAdd_clampAdd v w1 w2 h2, clampAdd_clampAdd v w2 w1 h1]
  ring_nf

theorem hitEffect_congr (m m' : WallMesh) (I : ℝ) (p : Vec3) (j i : ℤ)
    (hw : m'.width = m.width) (hh : m'.height = m.height)
    (hr : m'.resolution = m.resolution) :
    hitEffect m' I p j i = hitEffect m I p j i := by
  unfold hitEffect worldToTexture
  rw [hw, hh, hr]

theorem hitEffect_comm (m : WallMesh) (I : ℝ) (hI : 0 ≤ I) (p q : Vec3)
    (j i : ℤ) (v : ℝ) :
    hitEffect m I q j i (hitEffect m I p j i v) =
    hitEffect m I p j i (hitEffect m I q j i v) := by
  rcases hitEffect_shape m I p j i hI with hp | ⟨w1, hw1, hp⟩ <;>
    rcases hitEffect_shape m I q j i hI with hq | ⟨w2, hw2, hq⟩
  · simp only [hp, hq]
  · simp only [hp, hq]
  · simp only [hp, hq]
  · simp only [hp, hq]
    exact clampAdd_comm v w1 w2 hw1 hw2

theorem depositPos_comm (m : WallMesh) (I : ℝ) (hI : 0 ≤ I) (p q : Vec3) :
    depositPos (depositPos m I p) I q = depositPos (depositPos m I q) I p := by
  have cw := depositPos_width m I
  have ch := depositPos_height m I
  have cr := depositPos_resolution m I
  apply WallMesh.ext
  · simp only [depositPos_width]
  · simp only [depositPos_height]
  · simp only [depositPos_resolution]
  · funext j i
    rw [depositPos_apply (depositPos m I p) I q j i,
      depositPos_apply (depositPos m I q) I p j i,
      hitEffect_congr m (depositPos m I p) I q j i (cw p) (ch p) (cr p),
      hitEffect_congr m (depositPos m I q) I p j i (cw q) (ch q) (cr q),
      depositPos_apply m I p j i, depositPos_apply m I q j i]
    exact hitEffect_comm m I hI p q j i (m.paint_coverage j i)
  · simp only [depositPos_vertices]
  · simp only [depositPos_faces]

theorem foldl_perm_of_comm {α β : Type} (f : β → α → β)
    (hc : ∀ (b : β) (a a' : α), f (f b a) a' = f (f b a') a)
    {l1 l2 : List α} (hp : l1.Perm l2) : ∀ b, l1.foldl f b = l2.foldl f b := by
  induction hp with
  | nil => intro b; rfl
  | cons a _ ih =>
      intro b
      rw [List.foldl_cons, List.foldl_cons]
      exact ih (f b a)
  | swap a a' l =>
      intro b
      rw [List.foldl_cons, List.foldl_cons, List.foldl_cons, List.foldl_cons,
        hc]
  | trans _ _ ih1 ih2 =>
      intro b
      exact (ih1 b).trans (ih2 b)

/-- Claim C5: for any grid, any list of hit points within the tolerance
band and any non-negative intensity, `add_paint` applied to any
permutation of the hit-point list yields the same final wall state:
per-cell deposits are clamped non-negative adds, hence commute. -/
theorem addPaint_order_independent (m : WallMesh) (I : ℝ)
    (l1 l2 : List Vec3) (hI : 0 ≤ I) (htol : ∀ p ∈ l1, |p.z| < 0.2)
    (hp : l1.Perm l2) : addPaint m l1 I = addPaint m l2 I :=
  foldl_perm_of_comm (fun mm p => depositPos mm I p)
    (fun mm a a' => depositPos_comm mm I hI a a') hp m

/-- Witness for C5: depositing two in-tolerance hit points in either
order on the default wall yields the same wall state. -/
theorem addPaint_order_independent_witness :
    (0 : ℝ) ≤ 0.15 ∧
    (∀ p ∈ ([⟨0, 0, 0⟩, ⟨1, 1, 0.1⟩] : List Vec3), |p.z| < 0.2) ∧
    addPaint (wallMeshInit 4 3 128) [⟨0, 0, 0⟩, ⟨1, 1, 0.1⟩] 0.15 =
      addPaint (wallMeshInit 4 3 128) [⟨1, 1, 0.1⟩, ⟨0, 0, 0⟩] 0.15 := by
  have htol : ∀ p ∈ ([⟨0, 0, 0⟩, ⟨1, 1, 0.1⟩] : List Vec3), |p.z| < 0.2 := by
    intro p hp
    rcases List.mem_cons.mp hp with rfl | hp'
    · show |(0 : ℝ)| < 0.2
      rw [abs_zero]
      norm_num
    · rcases List.mem_singleton.mp hp' with rfl
      show |(0.1 : ℝ)| < 0.2
      rw [abs_of_pos (by norm_num)]
      norm_num
  exact ⟨by norm_num, htol,
    addPaint_order_independent (wallMeshInit 4 3 128) 0.15 _ _ (by norm_num)
      htol (List.Perm.swap (⟨1, 1, 0.1⟩ : Vec3) (⟨0, 0, 0⟩ : Vec3) [])⟩

theorem sq_sum_le_four_bounds (a b : ℤ) (h : a * a + b * b ≤ 4) :
    -2 ≤ a ∧ a ≤ 2 ∧ -2 ≤ b ∧ b ≤ 2 :=
  ⟨by nlinarith [mul_self_nonneg b], by nlinarith [mul_self_nonneg b],
   by nlinarith [mul_self_nonneg a], by nlinarith [mul_self_nonneg a]⟩

theorem addPaint_singleton (m : WallMesh) (I : ℝ) (p : Vec3) :
    addPaint m [p] I = depositPos m I p := rfl

/-- Claim C6: for an accepted hit point, the primary cell receives
`min(1, old + intensity)`, and every in-bounds cell within Euclidean
distance `2` of the primary cell (the spread radius), centre excluded,
receives `min(1, old + intensity * falloff_factor * max(0, 1 - d/2))`
with `d` the Euclidean distance in grid cells and
`falloff_factor = 0.3 < 1`. -/
theorem addPaint_single_hit_deposit (m : WallMesh) (I : ℝ) (p : Vec3)
    (x y : ℤ) (htol : |p.z| < 0.2) (hxy : worldToTexture m p = (x, y)) :
    falloff_factor < 1 ∧
    (addPaint m [p] I).paint_coverage y x =
      min 1 (m.paint_coverage y x + I) ∧
    ∀ dx dy : ℤ, ¬(dx = 0 ∧ dy = 0) → dx * dx + dy * dy ≤ 4 →
      0 ≤ x + dx → x + dx < m.resolution →
      0 ≤ y + dy → y + dy < m.resolution →
      (addPaint m [p] I).paint_coverage (y + dy) (x + dx) =
        min 1 (m.paint_coverage (y + dy) (x + dx) +
          I * falloff_factor *
            max 0 (1 - Real.sqrt ((dx : ℝ) * (dx : ℝ) +
              (dy : ℝ) * (dy : ℝ)) / 2)) := by
  refine ⟨by norm_num [falloff_factor], ?_, ?_⟩
  · rw [addPaint_singleton, depositPos_apply]
    unfold hitEffect
    rw [if_pos htol]
    dsimp only
    rw [hxy]
    dsimp only
    rw [if_pos ⟨rfl, rfl⟩]
  · intro dx dy hnz hsq hb1 hb2 hb3 hb4
    obtain ⟨hs1, hs2, hs3, hs4⟩ := sq_sum_le_four_bounds dx dy hsq
    rw [addPaint_singleton, depositPos_apply]
    unfold hitEffect
    rw [if_pos htol]
    dsimp only
    rw [hxy]
    dsimp only
    rw [if_neg (fun hc => hnz ⟨by omega, by omega⟩),
      if_pos ⟨⟨by omega, by omega, by omega, by omega⟩, hb1, hb2, hb3, hb4⟩,
      show x + dx - x = dx by ring, show y + dy - y = dy by ring]
    unfold spreadWeight
    dsimp only

theorem worldToTexture_center :
    worldToTexture (wallMeshInit 4 3 128) ⟨0, 0, 0⟩ = (64, 64) := by
  unfold worldToTexture wallMeshInit truncInt
  dsimp only
  have h1 : ((0 : ℝ) + 4 / 2) / 4 * ((128 : ℤ) : ℝ) = 64 := by norm_num
  have h2 : ((0 : ℝ) + 3 / 2) / 3 * ((128 : ℤ) : ℝ) = 64 := by norm_num
  rw [h1, h2, if_pos (by norm_num : (0 : ℝ) ≤ 64)]
  norm_num

/-- Witness for C6: a hit at the wall centre of the default wall maps
to cell `(64, 64)`; the primary cell gets the clamped full intensity
and the in-bounds neighbour at offset `(dx, dy) = (1, 0)` gets the
clamped spread deposit. -/
theorem addPaint_single_hit_deposit_witness :
    |(0 : ℝ)| < 0.2 ∧
    (addPaint (wallMeshInit 4 3 128) [⟨0, 0, 0⟩] 0.15).paint_coverage 64 64 =
      min 1 ((wallMeshInit 4 3 128).paint_coverage 64 64 + 0.15) ∧
    (addPaint (wallMeshInit 4 3 128) [⟨0, 0, 0⟩] 0.15).paint_coverage
        (64 + 0) (64 + 1) =
      min 1 ((wallMeshInit 4 3 128).paint_coverage (64 + 0) (64 + 1) +
        0.15 * falloff_factor *
          max 0 (1 - Real.sqrt (((1 : ℤ) : ℝ) * ((1 : ℤ) : ℝ) +
            ((0 : ℤ) : ℝ) * ((0 : ℤ) : ℝ)) / 2)) := by
  have hz : |((⟨0, 0, 0⟩ : Vec3)).z| < 0.2 := by
    show |(0 : ℝ)| < 0.2
    rw [abs_zero]
    norm_num
  have h := addPaint_single_hit_deposit (wallMeshInit 4 3 128) 0.15
    ⟨0, 0, 0⟩ 64 64 hz worldToTexture_center
  refine ⟨by rw [abs_zero]; norm_num, h.2.1, ?_⟩
  exact h.2.2 1 0 (by omega) (by norm_num)
    (by norm_num) (by norm_num [wallMeshInit])
    (by norm_num) (by norm_num [wallMeshInit])

/-- Claim C8: the simulation core is deterministic.  With the random
streams, the configuration, the time step and the frame count fixed,
any two executions of the frame loop from the same start state reach
the same final state — in particular the same particle batches, the
same per-frame hit lists (the `hitWall`/`positions` arrays feeding
`collect_paint_hits` agree) and the same final coverage grid.  Per
frame, each particle is a function of the frame seed `frame * 1000`
and its thread index alone, so the same seed and index always yield
the same particle. -/
theorem run_simulation_deterministic (u : ℤ → ℤ → ℕ → ℝ)
    (cfg : SprayParameters) (dt : ℝ) (n : ℕ) (s t1 t2 : SimState)
    (h1 : SimRun u cfg dt n s t1) (h2 : SimRun u cfg dt n s t2) :
    t1 = t2 := by
  induction h1 generalizing t2 with
  | zero s => cases h2; rfl
  | succ hrun hstep ih =>
      cases h2 with
      | succ hrun' hstep' =>
          cases hstep
          cases hstep'
          rw [ih _ hrun']

/-- Witness for C8: two one-frame runs from the initial simulator state
under the zero stream reach the same state. -/
theorem run_simulation_deterministic_witness :
    frameStep streamZero sprayParametersInit 0.1
      (simInit sprayParametersInit) =
    frameStep streamZero sprayParametersInit 0.1
      (simInit sprayParametersInit) :=
  run_simulation_deterministic streamZero sprayParametersInit 0.1 1
    (simInit sprayParametersInit) _ _
    (SimRun.succ (SimRun.zero _) (SimStep.mk _))
    (SimRun.succ (SimRun.zero _) (SimStep.mk _))

end SpraySim
